import Mathlib

/-!
Shallow embedding of the item resolution/caching helper of the Iris
media-library front-end (the `ensureLoaded` module): the dependent
descriptor evaluator (`getMissingDependents`, `getDependentUris`) and the
resolution orchestrator (`ensureLoaded`), together with proofs of the
behavioural properties stated in the specification.

Modelling decisions:
* JS attribute values are modelled by `Value`; the module only ever
  distinguishes `undefined`/`null` from defined values and arrays from
  non-arrays, and only reads string elements out of arrays, so arrays are
  modelled as lists of strings and every other defined value collapses to
  `Value.other`.
* Entities (JS objects) are insertion-ordered association lists.
* The redux store, the localForage cold store and the dispatched actions
  are external collaborators; `ensureLoaded` is modelled as a pure
  function from the index state, the cold-store state and the resolution
  request to the ordered list of observable events it produces (dispatches,
  the `fetch()` delegate call, and cold-store reads).  The asynchronous
  parts of the JS function (`.then` continuations, the `Promise.all` join)
  are flattened into the single event list in their causal order; the
  parallel dependent reads appear in issue order followed by the single
  joined restoration dispatch.
* `store.getState()` is a synchronous, effect-free read, so it is an input
  of the trace function rather than an event; "no index read occurs" is
  formalised as the trace being the same for every index state.
* `formatContext` (the context formatter from `./format`) is an external
  collaborator; a dispatched `from` field is recorded symbolically as
  `PayloadField.fromContext item`, i.e. "the result of formatting `item`".
-/

namespace Iris

/-- JS values as inspected by this module: `undefined`, `null`, strings,
arrays of URI strings, and any other defined non-null value (never
distinguished further by the code). -/
inductive Value where
  | undef
  | vnull
  | str (s : String)
  | arr (elems : List String)
  | other
deriving DecidableEq, Repr

/-- An entity / JS object: an insertion-ordered attribute list. -/
abbrev Item := List (String × Value)

/-- Lookup in an association list keyed by strings (first match). -/
def lookupKey {α : Type} : List (String × α) → String → Option α
  | [], _ => none
  | (k, v) :: rest, key => if k = key then some v else lookupKey rest key

/-- `item[name]` — attribute access, `undefined` when absent. -/
def getAttr (item : Item) (name : String) : Value :=
  (lookupKey item name).getD Value.undef

/-- `v === undefined || v === null`. -/
def isMissingValue (v : Value) : Bool :=
  v = Value.undef ∨ v = Value.vnull

/-- `getMissingDependents` from the source: the names of the effective
dependent set whose value on the item is undefined or null; everything is
missing when the item is absent. -/
def getMissingDependents (item : Option Item) (dependents fullDependents : List String)
    (full : Bool) : List String :=
  let allDependents := dependents ++ fullDependents
  match item with
  | none => allDependents
  | some it =>
    if full then
      allDependents.filter (fun dep => isMissingValue (getAttr it dep))
    else
      dependents.filter (fun dep => isMissingValue (getAttr it dep))

/-- Does `dep` match the JS regular expression `(.*)_uri(.*)` (an unanchored
search), i.e. does it contain `_uri` as a substring?  Spelled out over the
character list. -/
def startsWithUriMark : List Char → Bool
  | '_' :: 'u' :: 'r' :: 'i' :: _ => true
  | _ => false

/-- Whether some suffix of the character list starts with `_uri`. -/
def hasUriMark : List Char → Bool
  | [] => false
  | c :: rest => startsWithUriMark (c :: rest) || hasUriMark rest

/-- `dep.match(new RegExp('(.*)_uri(.*)'))` as a Boolean. -/
def matchesUriPattern (dep : String) : Bool :=
  hasUriMark dep.toList

/-- `getUrisOfDependent` (the inner helper of `getDependentUris`): the
attribute's elements when the name matches the pattern and the value is an
array, nothing otherwise. -/
def getUrisOfDependent (item : Item) (dep : String) : List String :=
  if ¬ matchesUriPattern dep then []
  else
    match getAttr item dep with
    | Value.arr uris => uris
    | _ => []

/-- `getDependentUris` from the source: fold over the concatenated
dependent names, appending each name's contributed URIs. -/
def getDependentUris (item : Option Item) (dependents fullDependents : List String) :
    List String :=
  match item with
  | none => []
  | some it =>
    (dependents ++ fullDependents).foldl
      (fun acc dep => acc ++ getUrisOfDependent it dep) []

/-- Reference definition following the spec's words for
`getMissingDependents`: absent entity ⇒ the full concatenation of the two
name lists; `full = true` ⇒ exactly the names of the concatenation whose
value is undefined or null; `full = false` ⇒ exactly the names of
`dependents` alone whose value is undefined or null, ignoring
`fullDependents`; order and duplicates of the inputs preserved. -/
def getMissingDependentsSpec (item : Option Item) (dependents fullDependents : List String)
    (full : Bool) : List String :=
  match item with
  | none => dependents ++ fullDependents
  | some it =>
    if full then
      (dependents ++ fullDependents).filter (fun dep => isMissingValue (getAttr it dep))
    else
      dependents.filter (fun dep => isMissingValue (getAttr it dep))

/-- Reference definition following the spec's words for
`getDependentUris`: empty when the entity is absent; otherwise the
concatenation, over the names of `dependents ++ fullDependents` in order
(duplicates preserved), of the item's array value at exactly those names
matching `*_uri*`, with non-matching names and non-array values
contributing nothing. -/
def getDependentUrisSpec (item : Option Item) (dependents fullDependents : List String) :
    List String :=
  match item with
  | none => []
  | some it =>
    ((dependents ++ fullDependents).map (fun dep =>
      if matchesUriPattern dep then
        match getAttr it dep with
        | Value.arr uris => uris
        | _ => []
      else [])).flatten

/-- Folding list appends equals the flatten of the mapped lists. -/
theorem foldl_append_eq_flatten {α β : Type} (f : α → List β) :
    ∀ (l : List α) (acc : List β),
      l.foldl (fun a d => a ++ f d) acc = acc ++ (l.map f).flatten := by
  intro l
  induction l with
  | nil => intro acc; simp
  | cons d rest ih =>
    intro acc
    simp [List.foldl_cons, ih]

/-- A field of a dispatched enqueue/play payload.  `fromContext it` stands
for the value `formatContext(it)` produced by the external context
formatter; `uriList` is the JS array literal `[item.uri]`; `plain` is a
field copied from `callbackAction` by the object spread. -/
inductive PayloadField where
  | uriList (vals : List Value)
  | fromContext (source : Item)
  | plain (v : Value)
deriving DecidableEq, Repr

/-- A dispatched enqueue/play payload object. -/
abbrev Payload := List (String × PayloadField)

/-- JS object literal `{ ...base, ...extra }` merge semantics for the
literal `{ uris, from, ...callbackAction }`: keys keep the position of
their first occurrence, later values override earlier ones. -/
def mergeObj (base extra : Payload) : Payload :=
  base.map (fun kv =>
    match lookupKey extra kv.1 with
    | some w => (kv.1, w)
    | none => kv)
  ++ extra.filter (fun kv => (lookupKey base kv.1).isNone)

/-- The payload of `enqueueURIs`/`playURIs` built by `runCallback`:
`{ uris: [item.uri], from: formatContext(item), ...callbackAction }`. -/
def callbackPayload (callbackAction : Item) (item : Item) : Payload :=
  mergeObj
    [("uris", PayloadField.uriList [getAttr item "uri"]),
     ("from", PayloadField.fromContext item)]
    (callbackAction.map (fun kv => (kv.1, PayloadField.plain kv.2)))

/-- An observable event of one `ensureLoaded` invocation: a dispatched
action, a call of the `fetch()` delegate, or an asynchronous cold-store
read (`localForage.getItem`). -/
inductive Event where
  | setLoading (uri : String) (isLoading : Bool)
  | stopLoading (uri : String)
  | loadItems (type : String) (uris : List String)
  | restoreItemsFromColdStore (items : List Item)
  | enqueueURIs (payload : Payload)
  | playURIs (payload : Payload)
  | coldStoreRead (uri : String)
  | fetchCall
deriving DecidableEq, Repr

/-- The inner `runCallback` of `ensureLoaded`: switch on
`callbackAction.name`, dispatching `enqueueURIs`/`playURIs` with the merged
payload, or nothing for any other name. -/
def runCallback (callbackAction : Item) (item : Item) : List Event :=
  if getAttr callbackAction "name" = Value.str "enqueue" then
    [Event.enqueueURIs (callbackPayload callbackAction item)]
  else if getAttr callbackAction "name" = Value.str "play" then
    [Event.playURIs (callbackPayload callbackAction item)]
  else
    []

/-- One named container of the index: uri → entity. -/
abbrev Container := List (String × Item)

/-- `store.getState().core`: containerName → container. -/
abbrev CoreState := List (String × Container)

/-- The localForage cold store: uri → entity (`none` models a miss, i.e.
the JS `null` result). -/
abbrev ColdStore := List (String × Item)

/-- The destructuring `const { core: { [containerName]: { [uri]: item } =
{} } = {} } = store.getState()`: a missing container defaults to the empty
object, so the item is `undefined`. -/
def indexItem (core : CoreState) (containerName uri : String) : Option Item :=
  (lookupKey core containerName).bind (fun container => lookupKey container uri)

/-- `localForage.getItem(uri)` over the modelled cold-store state. -/
def coldStoreItem (cold : ColdStore) (uri : String) : Option Item :=
  lookupKey cold uri

/-- lodash `compact` applied to the joined dependent reads: squash the
nulls (items not found in the cold store). -/
def compact (items : List (Option Item)) : List Item :=
  items.filterMap id

/-- A resolution request: the action's `uri` and `options`, together with
the resolver configuration.  The `fetch` delegate is opaque and zero-ary,
so its invocation is recorded as the event `Event.fetchCall`. -/
structure ResolutionRequest where
  uri : String
  forceRefetch : Bool
  full : Bool
  callbackAction : Option Item
  containerName : String
  dependents : List String
  fullDependents : List String
  type : String
deriving DecidableEq, Repr

/-- The cold-store continuation of `ensureLoaded` (the
`localForage.getItem(uri).then(...)` chain), reached when the index does
not satisfy the request: the issued cold-store read, then either a
loading-start plus fetch (miss or incomplete restored entity), or the
single-element restoration, the optional callback, and — when the restored
entity declares dependent URIs — the parallel dependent reads joined into
one bulk restoration of the non-null results. -/
def coldStorePath (cold : ColdStore) (req : ResolutionRequest) : List Event :=
  Event.coldStoreRead req.uri ::
    (match coldStoreItem cold req.uri with
     | none => [Event.setLoading req.uri true, Event.fetchCall]
     | some restoredItem =>
       if (getMissingDependents (some restoredItem) req.dependents req.fullDependents
            req.full).length > 0 then
         [Event.setLoading req.uri true, Event.fetchCall]
       else
         [Event.restoreItemsFromColdStore [restoredItem]]
           ++ (match req.callbackAction with
               | some cb => runCallback cb restoredItem
               | none => [])
           ++ (let uris := getDependentUris (some restoredItem) req.dependents req.fullDependents
               if uris.length > 0 then
                 uris.map Event.coldStoreRead
                   ++ [Event.restoreItemsFromColdStore
                         (compact (uris.map (coldStoreItem cold)))]
               else []))

/-- `ensureLoaded` from the source, as a pure trace function: given the
index state, the cold-store state and the request, the ordered list of
observable events (dispatches, `fetch()` calls, cold-store reads) the
invocation produces, asynchronous continuations included. -/
def ensureLoaded (store : CoreState) (cold : ColdStore) (req : ResolutionRequest) :
    List Event :=
  if req.forceRefetch then
    [Event.setLoading req.uri true, Event.fetchCall]
  else
    match indexItem store req.containerName req.uri with
    | some it =>
      if (getMissingDependents (some it) req.dependents req.fullDependents
           req.full).length = 0 then
        [Event.stopLoading req.uri]
          ++ (let uris := getDependentUris (some it) req.dependents req.fullDependents
              if uris.length ≠ 0 then [Event.loadItems req.type uris] else [])
          ++ (match req.callbackAction with
              | some cb => runCallback cb it
              | none => [])
      else
        coldStorePath cold req
    | none => coldStorePath cold req

/-- A concrete entity, as in the spec's Scenario A:
`{ uri: "x", name: "Foo", artist_uri: ["a","b"] }`. -/
def exItem : Item :=
  [("uri", Value.str "x"), ("name", Value.str "Foo"), ("artist_uri", Value.arr ["a", "b"])]

/-- A concrete request: `uri = "x"`, `dependents = ["artist_uri"]`,
`full = false`, no force-refetch, no callback. -/
def exReq : ResolutionRequest :=
  { uri := "x", forceRefetch := false, full := false, callbackAction := none,
    containerName := "items", dependents := ["artist_uri"], fullDependents := [],
    type := "album" }

/-- A concrete index state holding `exItem` under `"items"/"x"`. -/
def exStore : CoreState := [("items", [("x", exItem)])]

/-- A concrete cold store holding `exItem` at `"x"` and one of its two
dependents (`"a"`), with `"b"` missing. -/
def exCold : ColdStore := [("x", exItem), ("a", [("uri", Value.str "a")])]

/-! ## Helper lemmas -/

/-- Looking up in a value-mapped association list maps the lookup. -/
theorem lookupKey_map {α β : Type} (f : α → β) :
    ∀ (l : List (String × α)) (key : String),
      lookupKey (l.map (fun kv => (kv.1, f kv.2))) key = (lookupKey l key).map f := by
  intro l
  induction l with
  | nil => intro key; rfl
  | cons kv rest ih =>
    intro key
    by_cases h : kv.1 = key <;> simp [lookupKey, h, ih]

/-- A failed lookup means no entry carries the key. -/
theorem lookupKey_eq_none_forall {α : Type} :
    ∀ (l : List (String × α)) (key : String),
      lookupKey l key = none → ∀ kv ∈ l, kv.1 ≠ key := by
  intro l
  induction l with
  | nil => intro key _ kv hkv; simp at hkv
  | cons hd rest ih =>
    intro key h kv hkv
    by_cases hk : hd.1 = key
    · simp [lookupKey, hk] at h
    · cases hkv with
      | head => exact hk
      | tail _ hkv => exact ih key (by simpa [lookupKey, hk] using h) kv hkv

/-- Every event `runCallback` emits is an enqueue or a play dispatch. -/
theorem mem_runCallback (cb it : Item) (e : Event) (h : e ∈ runCallback cb it) :
    (∃ p, e = Event.enqueueURIs p) ∨ (∃ p, e = Event.playURIs p) := by
  unfold runCallback at h
  split at h
  · exact Or.inl ⟨_, List.mem_singleton.mp h⟩
  · split at h
    · exact Or.inr ⟨_, List.mem_singleton.mp h⟩
    · simp at h

/-- The optional callback step emits only enqueue/play dispatches. -/
theorem mem_callback_events (cbOpt : Option Item) (it : Item) (e : Event)
    (h : e ∈ (match cbOpt with | some cb => runCallback cb it | none => ([] : List Event))) :
    (∃ p, e = Event.enqueueURIs p) ∨ (∃ p, e = Event.playURIs p) := by
  cases cbOpt with
  | none => simp at h
  | some cb => exact mem_runCallback cb it e h

/-! ## Claims about the dependent descriptor evaluator -/

/-- C5: `getMissingDependents` coincides with the spec's reference
definition: absent item ⇒ the full concatenation of `dependents` and
`fullDependents` regardless of `full`; `full = true` ⇒ exactly the names of
the concatenation whose value on the item is undefined or null;
`full = false` ⇒ exactly those names of `dependents` alone, ignoring
`fullDependents`; concatenation order and duplicates preserved. -/
theorem getMissingDependents_eq_spec (item : Option Item)
    (dependents fullDependents : List String) (full : Bool) :
    getMissingDependents item dependents fullDependents full =
      getMissingDependentsSpec item dependents fullDependents full := by
  cases item <;> rfl

/-- C6: `getDependentUris` coincides with the spec's reference definition:
empty for an absent item; otherwise the concatenation, over the names of
`dependents ++ fullDependents` in order (duplicates preserved), of the
item's array value at exactly the names matching `*_uri*`, with
non-matching names and matching names holding a non-array value
contributing no URIs (and raising no error). -/
theorem getDependentUris_eq_spec (item : Option Item)
    (dependents fullDependents : List String) :
    getDependentUris item dependents fullDependents =
      getDependentUrisSpec item dependents fullDependents := by
  cases item with
  | none => rfl
  | some it =>
    have hfun : getUrisOfDependent it = (fun dep =>
        if matchesUriPattern dep then
          match getAttr it dep with
          | Value.arr uris => uris
          | _ => []
        else []) := by
      funext dep
      unfold getUrisOfDependent
      by_cases h : matchesUriPattern dep <;> simp [h]
    show (dependents ++ fullDependents).foldl
        (fun acc dep => acc ++ getUrisOfDependent it dep) [] = _
    rw [foldl_append_eq_flatten (getUrisOfDependent it), List.nil_append, hfun]
    rfl

/-- C7: for a resolved entity and a present `callbackAction`, the
dispatch-callback step dispatches, when `callbackAction.name` is
`"enqueue"`, one `enqueueURIs` request whose payload is
`{ uris: [item.uri], from: formatContext(item), ...callbackAction }`; when
the name is `"play"`, the identical request as a `playURIs` dispatch
instead; and nothing for any other name.  When `callbackAction` carries no
`uris`/`from` field of its own, the merged payload is exactly the
one-element uri list and the formatted context followed by the callback's
fields. -/
theorem runCallback_dispatch_cases (cb it : Item) :
    (getAttr cb "name" = Value.str "enqueue" →
      runCallback cb it = [Event.enqueueURIs (callbackPayload cb it)])
    ∧ (getAttr cb "name" = Value.str "play" →
      runCallback cb it = [Event.playURIs (callbackPayload cb it)])
    ∧ (getAttr cb "name" ≠ Value.str "enqueue" →
       getAttr cb "name" ≠ Value.str "play" →
      runCallback cb it = [])
    ∧ (lookupKey cb "uris" = none → lookupKey cb "from" = none →
      callbackPayload cb it =
        [("uris", PayloadField.uriList [getAttr it "uri"]),
         ("from", PayloadField.fromContext it)]
          ++ cb.map (fun kv => (kv.1, PayloadField.plain kv.2))) := by
  refine ⟨?_, ?_, ?_, ?_⟩
  · intro h
    simp [runCallback, h]
  · intro h
    simp [runCallback, h]
  · intro h1 h2
    simp [runCallback, h1, h2]
  · intro hu hf
    have h1 : lookupKey (cb.map (fun kv => (kv.1, PayloadField.plain kv.2))) "uris" = none := by
      rw [lookupKey_map, hu]; rfl
    have h2 : lookupKey (cb.map (fun kv => (kv.1, PayloadField.plain kv.2))) "from" = none := by
      rw [lookupKey_map, hf]; rfl
    have hkeys : ∀ kv ∈ cb.map (fun kv => (kv.1, PayloadField.plain kv.2)),
        kv.1 ≠ "uris" ∧ kv.1 ≠ "from" := by
      intro kv hkv
      rcases List.mem_map.mp hkv with ⟨kv₀, hkv₀, hkveq⟩
      subst hkveq
      exact ⟨lookupKey_eq_none_forall cb "uris" hu kv₀ hkv₀,
        lookupKey_eq_none_forall cb "from" hf kv₀ hkv₀⟩
    have hfilter : (cb.map (fun kv => (kv.1, PayloadField.plain kv.2))).filter
        (fun kv => (lookupKey
          [("uris", PayloadField.uriList [getAttr it "uri"]),
           ("from", PayloadField.fromContext it)] kv.1).isNone) =
        cb.map (fun kv => (kv.1, PayloadField.plain kv.2)) := by
      apply List.filter_eq_self.mpr
      intro kv hkv
      rcases hkeys kv hkv with ⟨hn1, hn2⟩
      simp [lookupKey, Ne.symm hn1, Ne.symm hn2]
    unfold callbackPayload mergeObj
    simp only [List.map_cons, List.map_nil]
    rw [h1, h2, hfilter]

/-- Witness for C7 at a concrete callback and entity. -/
theorem runCallback_dispatch_cases_witness :
    runCallback [("name", Value.str "play")] [("uri", Value.str "x")] =
      [Event.playURIs
        (callbackPayload [("name", Value.str "play")] [("uri", Value.str "x")])] :=
  (runCallback_dispatch_cases [("name", Value.str "play")] [("uri", Value.str "x")]).2.1 rfl

/-! ## Branch-trace helper lemmas for the orchestrator -/

/-- When the index satisfies the request, the trace is the loading-stop
signal, the optional bulk load, and the optional callback dispatches. -/
theorem ensureLoaded_index_branch (store : CoreState) (cold : ColdStore)
    (req : ResolutionRequest) (it : Item)
    (hforce : req.forceRefetch = false)
    (hitem : indexItem store req.containerName req.uri = some it)
    (hmiss : getMissingDependents (some it) req.dependents req.fullDependents req.full = []) :
    ensureLoaded store cold req =
      [Event.stopLoading req.uri]
        ++ (let uris := getDependentUris (some it) req.dependents req.fullDependents
            if uris.length ≠ 0 then [Event.loadItems req.type uris] else [])
        ++ (match req.callbackAction with
            | some cb => runCallback cb it
            | none => []) := by
  unfold ensureLoaded
  rw [hforce, hitem]
  simp [hmiss]

/-- When the index does not satisfy the request (entity absent, or present
with missing dependents) and no refetch is forced, the trace is the
cold-store continuation. -/
theorem ensureLoaded_fallthrough (store : CoreState) (cold : ColdStore)
    (req : ResolutionRequest)
    (hforce : req.forceRefetch = false)
    (hfall : ∀ it, indexItem store req.containerName req.uri = some it →
        getMissingDependents (some it) req.dependents req.fullDependents req.full ≠ []) :
    ensureLoaded store cold req = coldStorePath cold req := by
  unfold ensureLoaded
  rw [hforce]
  cases hidx : indexItem store req.containerName req.uri with
  | none => simp
  | some it =>
    have hne : (getMissingDependents (some it) req.dependents req.fullDependents
        req.full).length ≠ 0 := by
      intro h
      exact hfall it hidx (List.length_eq_zero.mp h)
    simp [hne]

/-- A cold-store miss, or an incomplete restored entity, makes the
continuation signal loading-start and call `fetch()`. -/
theorem coldStorePath_miss (cold : ColdStore) (req : ResolutionRequest)
    (hmiss : coldStoreItem cold req.uri = none ∨
      ∃ r, coldStoreItem cold req.uri = some r ∧
        getMissingDependents (some r) req.dependents req.fullDependents req.full ≠ []) :
    coldStorePath cold req =
      [Event.coldStoreRead req.uri, Event.setLoading req.uri true, Event.fetchCall] := by
  unfold coldStorePath
  rcases hmiss with h | ⟨r, hr, hne⟩
  · rw [h]
  · rw [hr]
    have hlen : (getMissingDependents (some r) req.dependents req.fullDependents
        req.full).length > 0 := by
      cases hl : (getMissingDependents (some r) req.dependents req.fullDependents
          req.full).length with
      | zero => exact absurd (List.length_eq_zero.mp hl) hne
      | succ n => omega
    simp [hlen]

/-- A complete restored entity makes the continuation restore it, run the
optional callback, and hydrate its dependents from the cold store. -/
theorem coldStorePath_restore (cold : ColdStore) (req : ResolutionRequest) (r : Item)
    (hr : coldStoreItem cold req.uri = some r)
    (hcomplete : getMissingDependents (some r) req.dependents req.fullDependents req.full = []) :
    coldStorePath cold req =
      [Event.coldStoreRead req.uri, Event.restoreItemsFromColdStore [r]]
        ++ (match req.callbackAction with
            | some cb => runCallback cb r
            | none => [])
        ++ (let uris := getDependentUris (some r) req.dependents req.fullDependents
            if uris.length > 0 then
              uris.map Event.coldStoreRead
                ++ [Event.restoreItemsFromColdStore
                      (compact (uris.map (coldStoreItem cold)))]
            else []) := by
  unfold coldStorePath
  rw [hr]
  simp [hcomplete]

/-- Shape of the events of the index-satisfied branch. -/
theorem mem_indexEvents (req : ResolutionRequest) (it : Item) (e : Event)
    (h : e ∈ [Event.stopLoading req.uri]
        ++ (let uris := getDependentUris (some it) req.dependents req.fullDependents
            if uris.length ≠ 0 then [Event.loadItems req.type uris] else [])
        ++ (match req.callbackAction with
            | some cb => runCallback cb it
            | none => ([] : List Event))) :
    e = Event.stopLoading req.uri ∨ (∃ uris, e = Event.loadItems req.type uris)
      ∨ (∃ p, e = Event.enqueueURIs p) ∨ (∃ p, e = Event.playURIs p) := by
  rcases List.mem_append.mp h with h | h
  · rcases List.mem_append.mp h with h | h
    · exact Or.inl (List.mem_singleton.mp h)
    · by_cases hc : (getDependentUris (some it) req.dependents req.fullDependents).length ≠ 0
      · simp only [hc, if_true] at h
        simp at h
        exact Or.inr (Or.inl ⟨_, h.2⟩)
      · simp [hc] at h
  · rcases mem_callback_events req.callbackAction it e h with ⟨p, hp⟩ | ⟨p, hp⟩
    · exact Or.inr (Or.inr (Or.inl ⟨p, hp⟩))
    · exact Or.inr (Or.inr (Or.inr ⟨p, hp⟩))

/-- Shape of the events of the cold-store restoration branch. -/
theorem mem_restoreEvents (cold : ColdStore) (req : ResolutionRequest) (r : Item) (e : Event)
    (h : e ∈ [Event.coldStoreRead req.uri, Event.restoreItemsFromColdStore [r]]
        ++ (match req.callbackAction with
            | some cb => runCallback cb r
            | none => ([] : List Event))
        ++ (let uris := getDependentUris (some r) req.dependents req.fullDependents
            if uris.length > 0 then
              uris.map Event.coldStoreRead
                ++ [Event.restoreItemsFromColdStore
                      (compact (uris.map (coldStoreItem cold)))]
            else [])) :
    (∃ u, e = Event.coldStoreRead u) ∨ (∃ items, e = Event.restoreItemsFromColdStore items)
      ∨ (∃ p, e = Event.enqueueURIs p) ∨ (∃ p, e = Event.playURIs p) := by
  rcases List.mem_append.mp h with h | h
  · rcases List.mem_append.mp h with h | h
    · rcases List.mem_cons.mp h with h | h
      · exact Or.inl ⟨_, h⟩
      · exact Or.inr (Or.inl ⟨_, List.mem_singleton.mp h⟩)
    · rcases mem_callback_events req.callbackAction r e h with ⟨p, hp⟩ | ⟨p, hp⟩
      · exact Or.inr (Or.inr (Or.inl ⟨p, hp⟩))
      · exact Or.inr (Or.inr (Or.inr ⟨p, hp⟩))
  · by_cases hc : (getDependentUris (some r) req.dependents req.fullDependents).length > 0
    · simp only [hc, if_true] at h
      rcases List.mem_append.mp h with h | h
      · rcases List.mem_map.mp h with ⟨u, _, hu⟩
        exact Or.inl ⟨u, hu.symm⟩
      · exact Or.inr (Or.inl ⟨_, List.mem_singleton.mp h⟩)
    · simp [hc] at h

/-! ## Claims about the resolution orchestrator -/

/-- C1: with `forceRefetch` false, an entity present in the index's named
container under `uri`, and no missing dependents on the live entity,
`ensureLoaded` dispatches `stopLoading(uri)`, then — when `getDependentUris`
over the entity is non-empty — `loadItems(type, uris)` with exactly those
URIs, then the dispatch-callback step when a `callbackAction` is present;
in this branch `fetch()` is never invoked, no cold-store read is issued,
and the trace does not depend on the cold-store contents. -/
theorem ensureLoaded_index_satisfied (store : CoreState) (cold : ColdStore)
    (req : ResolutionRequest) (it : Item)
    (hforce : req.forceRefetch = false)
    (hitem : indexItem store req.containerName req.uri = some it)
    (hmiss : getMissingDependents (some it) req.dependents req.fullDependents req.full = []) :
    ensureLoaded store cold req =
      [Event.stopLoading req.uri]
        ++ (let uris := getDependentUris (some it) req.dependents req.fullDependents
            if uris.length ≠ 0 then [Event.loadItems req.type uris] else [])
        ++ (match req.callbackAction with
            | some cb => runCallback cb it
            | none => [])
      ∧ Event.fetchCall ∉ ensureLoaded store cold req
      ∧ (∀ u, Event.coldStoreRead u ∉ ensureLoaded store cold req)
      ∧ (∀ cold₂, ensureLoaded store cold₂ req = ensureLoaded store cold req) := by
  have ht := ensureLoaded_index_branch store cold req it hforce hitem hmiss
  refine ⟨ht, ?_, ?_, ?_⟩
  · intro hmem
    rw [ht] at hmem
    rcases mem_indexEvents req it Event.fetchCall hmem with h | ⟨u, h⟩ | ⟨p, h⟩ | ⟨p, h⟩ <;>
      exact Event.noConfusion h
  · intro u hmem
    rw [ht] at hmem
    rcases mem_indexEvents req it (Event.coldStoreRead u) hmem
      with h | ⟨u₂, h⟩ | ⟨p, h⟩ | ⟨p, h⟩ <;> exact Event.noConfusion h
  · intro cold₂
    exact (ensureLoaded_index_branch store cold₂ req it hforce hitem hmiss).trans ht.symm

/-- Witness for C1: Scenario A — `exItem` indexed under `"x"`, request with
`dependents = ["artist_uri"]`, yielding the loading-stop signal and the
bulk load of `["a","b"]`. -/
theorem ensureLoaded_index_satisfied_witness :
    ensureLoaded exStore exCold exReq =
      [Event.stopLoading "x", Event.loadItems "album" ["a", "b"]] :=
  (ensureLoaded_index_satisfied exStore exCold exReq exItem rfl (by decide) (by decide)).1

/-- C2: with `options.forceRefetch` true, `ensureLoaded` dispatches
`setLoading(uri, true)` and invokes `fetch()` exactly once, issues no
cold-store read, dispatches nothing else, and the trace does not depend on
the index or cold-store contents at all. -/
theorem ensureLoaded_force_refetch (store : CoreState) (cold : ColdStore)
    (req : ResolutionRequest)
    (hforce : req.forceRefetch = true) :
    ensureLoaded store cold req = [Event.setLoading req.uri true, Event.fetchCall]
      ∧ (ensureLoaded store cold req).count Event.fetchCall = 1
      ∧ (∀ u, Event.coldStoreRead u ∉ ensureLoaded store cold req)
      ∧ (∀ store₂ cold₂, ensureLoaded store₂ cold₂ req = ensureLoaded store cold req) := by
  have ht : ensureLoaded store cold req = [Event.setLoading req.uri true, Event.fetchCall] := by
    simp [ensureLoaded, hforce]
  refine ⟨ht, ?_, ?_, ?_⟩
  · rw [ht]
    rfl
  · intro u hmem
    rw [ht] at hmem
    simp at hmem
  · intro store₂ cold₂
    rw [ht]
    simp [ensureLoaded, hforce]

/-- Witness for C2: Scenario D at concrete states. -/
theorem ensureLoaded_force_refetch_witness :
    ensureLoaded exStore exCold { exReq with forceRefetch := true } =
      [Event.setLoading "x" true, Event.fetchCall] :=
  (ensureLoaded_force_refetch exStore exCold { exReq with forceRefetch := true } rfl).1

/-- C3: with `forceRefetch` false, the entity absent from the index or
present but incomplete, and the cold store missing the entity or holding an
incomplete one, `ensureLoaded` reads `uri` from the cold store, dispatches
`setLoading(uri, true)`, invokes `fetch()` exactly once, and dispatches no
restoration. -/
theorem ensureLoaded_cold_miss_fetches (store : CoreState) (cold : ColdStore)
    (req : ResolutionRequest)
    (hforce : req.forceRefetch = false)
    (hfall : indexItem store req.containerName req.uri = none ∨
      ∃ it, indexItem store req.containerName req.uri = some it ∧
        getMissingDependents (some it) req.dependents req.fullDependents req.full ≠ [])
    (hcold : coldStoreItem cold req.uri = none ∨
      ∃ r, coldStoreItem cold req.uri = some r ∧
        getMissingDependents (some r) req.dependents req.fullDependents req.full ≠ []) :
    ensureLoaded store cold req =
      [Event.coldStoreRead req.uri, Event.setLoading req.uri true, Event.fetchCall]
      ∧ (ensureLoaded store cold req).count Event.fetchCall = 1
      ∧ (∀ items, Event.restoreItemsFromColdStore items ∉ ensureLoaded store cold req) := by
  have hfall₂ : ∀ it, indexItem store req.containerName req.uri = some it →
      getMissingDependents (some it) req.dependents req.fullDependents req.full ≠ [] := by
    intro it hit
    rcases hfall with h | ⟨it₂, hit₂, hne⟩
    · rw [h] at hit
      exact absurd hit (by simp)
    · rw [hit₂] at hit
      rw [← Option.some.inj hit]
      exact hne
  have ht := (ensureLoaded_fallthrough store cold req hforce hfall₂).trans
    (coldStorePath_miss cold req hcold)
  refine ⟨ht, ?_, ?_⟩
  · rw [ht]
    rfl
  · intro items hmem
    rw [ht] at hmem
    simp at hmem

/-- Witness for C3: Scenario C — empty index and empty cold store. -/
theorem ensureLoaded_cold_miss_fetches_witness :
    ensureLoaded [] [] exReq =
      [Event.coldStoreRead "x", Event.setLoading "x" true, Event.fetchCall] :=
  (ensureLoaded_cold_miss_fetches [] [] exReq rfl (Or.inl rfl) (Or.inl rfl)).1

/-- C4: with `forceRefetch` false, the index not satisfying the request,
and the cold store holding a complete entity at `uri`, `ensureLoaded` never
invokes `fetch()`: it dispatches the single-element restoration of the
restored entity, runs the dispatch-callback when present, then — when the
restored entity declares dependent URIs — reads each of them from the cold
store and dispatches exactly one bulk restoration containing only the
non-null results, cold-store misses among dependents being silently
filtered out. -/
theorem ensureLoaded_cold_satisfied (store : CoreState) (cold : ColdStore)
    (req : ResolutionRequest) (r : Item)
    (hforce : req.forceRefetch = false)
    (hfall : indexItem store req.containerName req.uri = none ∨
      ∃ it, indexItem store req.containerName req.uri = some it ∧
        getMissingDependents (some it) req.dependents req.fullDependents req.full ≠ [])
    (hr : coldStoreItem cold req.uri = some r)
    (hcomplete : getMissingDependents (some r) req.dependents req.fullDependents req.full = []) :
    ensureLoaded store cold req =
      [Event.coldStoreRead req.uri, Event.restoreItemsFromColdStore [r]]
        ++ (match req.callbackAction with
            | some cb => runCallback cb r
            | none => [])
        ++ (let uris := getDependentUris (some r) req.dependents req.fullDependents
            if uris.length > 0 then
              uris.map Event.coldStoreRead
                ++ [Event.restoreItemsFromColdStore
                      (compact (uris.map (coldStoreItem cold)))]
            else [])
      ∧ Event.fetchCall ∉ ensureLoaded store cold req := by
  have hfall₂ : ∀ it, indexItem store req.containerName req.uri = some it →
      getMissingDependents (some it) req.dependents req.fullDependents req.full ≠ [] := by
    intro it hit
    rcases hfall with h | ⟨it₂, hit₂, hne⟩
    · rw [h] at hit
      exact absurd hit (by simp)
    · rw [hit₂] at hit
      rw [← Option.some.inj hit]
      exact hne
  have ht := (ensureLoaded_fallthrough store cold req hforce hfall₂).trans
    (coldStorePath_restore cold req r hr hcomplete)
  refine ⟨ht, ?_⟩
  intro hmem
  rw [ht] at hmem
  rcases mem_restoreEvents cold req r Event.fetchCall hmem
    with ⟨u, h⟩ | ⟨items, h⟩ | ⟨p, h⟩ | ⟨p, h⟩ <;> exact Event.noConfusion h

/-- Witness for C4: Scenario B — empty index, cold store with the complete
entity and one of its two dependents; the miss `"b"` is filtered from the
bulk restoration. -/
theorem ensureLoaded_cold_satisfied_witness :
    ensureLoaded [] exCold exReq =
      [Event.coldStoreRead "x",
       Event.restoreItemsFromColdStore [exItem],
       Event.coldStoreRead "a", Event.coldStoreRead "b",
       Event.restoreItemsFromColdStore [[("uri", Value.str "a")]]] :=
  (ensureLoaded_cold_satisfied [] exCold exReq exItem rfl (Or.inl rfl)
    (by decide) (by decide)).1

/-- A trace free of `fetchCall` trivially satisfies the at-most-once and
guarded-fetch conditions. -/
theorem no_fetch_invariant (t : List Event) (uri : String)
    (h : Event.fetchCall ∉ t) :
    t.count Event.fetchCall ≤ 1
    ∧ ∀ l₁ l₂, t = l₁ ++ Event.fetchCall :: l₂ →
        l₁.getLast? = some (Event.setLoading uri true) := by
  constructor
  · rw [List.count_eq_zero.mpr h]
    exact Nat.zero_le 1
  · intro l₁ l₂ heq
    exfalso
    apply h
    rw [heq]
    simp

/-- In the two-event refetch trace, the fetch is immediately preceded by
the loading-start dispatch. -/
theorem fetch_after_setLoading_pair (u : String) (l₁ l₂ : List Event)
    (h : [Event.setLoading u true, Event.fetchCall] = l₁ ++ Event.fetchCall :: l₂) :
    l₁.getLast? = some (Event.setLoading u true) := by
  cases l₁ with
  | nil => simp at h
  | cons a t =>
    cases t with
    | nil =>
      simp only [List.cons_append, List.nil_append, List.cons.injEq] at h
      rw [← h.1]
      rfl
    | cons b t₂ =>
      exfalso
      simp only [List.cons_append, List.cons.injEq] at h
      exact absurd h.2.2.symm (by simp)

/-- In the three-event cold-miss trace, the fetch is immediately preceded
by the loading-start dispatch. -/
theorem fetch_after_setLoading_triple (u : String) (l₁ l₂ : List Event)
    (h : [Event.coldStoreRead u, Event.setLoading u true, Event.fetchCall] =
      l₁ ++ Event.fetchCall :: l₂) :
    l₁.getLast? = some (Event.setLoading u true) := by
  cases l₁ with
  | nil => simp at h
  | cons a t =>
    cases t with
    | nil => simp at h
    | cons b t₂ =>
      cases t₂ with
      | nil =>
        simp only [List.cons_append, List.nil_append, List.cons.injEq] at h
        rw [← h.2.1]
        rfl
      | cons c t₃ =>
        exfalso
        simp only [List.cons_append, List.cons.injEq] at h
        exact absurd h.2.2.2.symm (by simp)

/-- The refetch trace calls `fetch()` exactly once. -/
theorem count_fetch_pair (u : String) :
    ([Event.setLoading u true, Event.fetchCall] : List Event).count Event.fetchCall = 1 :=
  rfl

/-- The cold-miss trace calls `fetch()` exactly once. -/
theorem count_fetch_triple (u : String) :
    ([Event.coldStoreRead u, Event.setLoading u true,
      Event.fetchCall] : List Event).count Event.fetchCall = 1 :=
  rfl

/-- The cold-store continuation calls `fetch()` at most once, and any fetch
in it is immediately preceded by `setLoading(uri, true)`. -/
theorem coldStorePath_fetch_invariant (cold : ColdStore) (req : ResolutionRequest) :
    (coldStorePath cold req).count Event.fetchCall ≤ 1
    ∧ ∀ l₁ l₂, coldStorePath cold req = l₁ ++ Event.fetchCall :: l₂ →
        l₁.getLast? = some (Event.setLoading req.uri true) := by
  cases hcs : coldStoreItem cold req.uri with
  | none =>
    have ht := coldStorePath_miss cold req (Or.inl hcs)
    rw [ht]
    exact ⟨le_of_eq (count_fetch_triple req.uri),
      fun l₁ l₂ h => fetch_after_setLoading_triple req.uri l₁ l₂ h⟩
  | some r =>
    by_cases hm : getMissingDependents (some r) req.dependents req.fullDependents req.full = []
    · have ht := coldStorePath_restore cold req r hcs hm
      have hnf : Event.fetchCall ∉ coldStorePath cold req := by
        rw [ht]
        intro hmem
        rcases mem_restoreEvents cold req r Event.fetchCall hmem
          with ⟨u, h⟩ | ⟨items, h⟩ | ⟨p, h⟩ | ⟨p, h⟩ <;> exact Event.noConfusion h
      exact no_fetch_invariant _ req.uri hnf
    · have ht := coldStorePath_miss cold req (Or.inr ⟨r, hcs, hm⟩)
      rw [ht]
      exact ⟨le_of_eq (count_fetch_triple req.uri),
        fun l₁ l₂ h => fetch_after_setLoading_triple req.uri l₁ l₂ h⟩

/-- C8: for an entity already complete in the index, two successive
invocations of `ensureLoaded` on the same state repeat the same observable
dispatches (the loading-stop signal is emitted once per invocation, twice
in the concatenated trace — side effects are repeated, not deduplicated),
and each invocation is deterministic: equal states and requests yield
equal traces. -/
theorem ensureLoaded_repeat_same_dispatches (store : CoreState) (cold : ColdStore)
    (req : ResolutionRequest) (it : Item)
    (hforce : req.forceRefetch = false)
    (hitem : indexItem store req.containerName req.uri = some it)
    (hmiss : getMissingDependents (some it) req.dependents req.fullDependents req.full = []) :
    (ensureLoaded store cold req ++ ensureLoaded store cold req).count
        (Event.stopLoading req.uri) = 2
      ∧ (ensureLoaded store cold req).count (Event.stopLoading req.uri) = 1
      ∧ (∀ store₂ cold₂ req₂, store₂ = store → cold₂ = cold → req₂ = req →
          ensureLoaded store₂ cold₂ req₂ = ensureLoaded store cold req) := by
  have ht := ensureLoaded_index_branch store cold req it hforce hitem hmiss
  have hcount : (ensureLoaded store cold req).count (Event.stopLoading req.uri) = 1 := by
    rw [ht]
    have h2 : ((let uris := getDependentUris (some it) req.dependents req.fullDependents
        if uris.length ≠ 0 then [Event.loadItems req.type uris]
        else []) : List Event).count (Event.stopLoading req.uri) = 0 := by
      by_cases hc : (getDependentUris (some it) req.dependents req.fullDependents).length ≠ 0 <;>
        simp [hc]
    have h3 : ((match req.callbackAction with
        | some cb => runCallback cb it
        | none => ([] : List Event))).count (Event.stopLoading req.uri) = 0 := by
      apply List.count_eq_zero.mpr
      intro hmem
      rcases mem_callback_events req.callbackAction it _ hmem with ⟨p, hp⟩ | ⟨p, hp⟩ <;>
        exact Event.noConfusion hp
    rw [List.count_append, List.count_append, h2, h3]
    simp
  refine ⟨?_, hcount, ?_⟩
  · rw [List.count_append, hcount]
  · intro store₂ cold₂ req₂ hs hc hr
    subst hs; subst hc; subst hr
    rfl

/-- Witness for C8 at Scenario A: the concatenated double trace carries the
loading-stop signal twice. -/
theorem ensureLoaded_repeat_same_dispatches_witness :
    (ensureLoaded exStore exCold exReq ++ ensureLoaded exStore exCold exReq).count
        (Event.stopLoading "x") = 2 :=
  (ensureLoaded_repeat_same_dispatches exStore exCold exReq exItem rfl
    (by decide) (by decide)).1

/-- C9: in every invocation and every branch, `fetch()` is invoked at most
once, and every `fetchCall` in the trace is immediately preceded by a
`setLoading(uri, true)` dispatch for the requested uri. -/
theorem ensureLoaded_fetch_guarded (store : CoreState) (cold : ColdStore)
    (req : ResolutionRequest) :
    (ensureLoaded store cold req).count Event.fetchCall ≤ 1
    ∧ ∀ l₁ l₂, ensureLoaded store cold req = l₁ ++ Event.fetchCall :: l₂ →
        l₁.getLast? = some (Event.setLoading req.uri true) := by
  cases hb : req.forceRefetch with
  | true =>
    have ht : ensureLoaded store cold req =
        [Event.setLoading req.uri true, Event.fetchCall] := by
      simp [ensureLoaded, hb]
    rw [ht]
    exact ⟨le_of_eq (count_fetch_pair req.uri),
      fun l₁ l₂ h => fetch_after_setLoading_pair req.uri l₁ l₂ h⟩
  | false =>
    cases hidx : indexItem store req.containerName req.uri with
    | none =>
      have ht := ensureLoaded_fallthrough store cold req hb
        (fun it h => by rw [hidx] at h; exact absurd h (by simp))
      rw [ht]
      exact coldStorePath_fetch_invariant cold req
    | some it =>
      by_cases hm : getMissingDependents (some it) req.dependents req.fullDependents
          req.full = []
      · have ht := ensureLoaded_index_branch store cold req it hb hidx hm
        have hnf : Event.fetchCall ∉ ensureLoaded store cold req := by
          rw [ht]
          intro hmem
          rcases mem_indexEvents req it Event.fetchCall hmem
            with h | ⟨u, h⟩ | ⟨p, h⟩ | ⟨p, h⟩ <;> exact Event.noConfusion h
        exact no_fetch_invariant _ req.uri hnf
      · have ht := ensureLoaded_fallthrough store cold req hb (fun it₂ h => by
          rw [hidx] at h
          rw [← Option.some.inj h]
          exact hm)
        rw [ht]
        exact coldStorePath_fetch_invariant cold req

/-- Witness for C9: at Scenario C's states the fetch count is bounded and
the decomposition of the trace around its fetch ends in the loading-start
dispatch. -/
theorem ensureLoaded_fetch_guarded_witness :
    (ensureLoaded [] [] exReq).count Event.fetchCall ≤ 1
    ∧ ([Event.coldStoreRead "x", Event.setLoading "x" true] : List Event).getLast?
        = some (Event.setLoading "x" true) :=
  ⟨(ensureLoaded_fetch_guarded [] [] exReq).1,
   (ensureLoaded_fetch_guarded [] [] exReq).2
     [Event.coldStoreRead "x", Event.setLoading "x" true] [] rfl⟩

/-- C10: in the cold-store-satisfied branch, `ensureLoaded` dispatches
neither a loading-started (`setLoading`) nor a loading-stopped
(`stopLoading`) signal for any uri: the loading flag is left unchanged
even though the entity becomes available. -/
theorem ensureLoaded_cold_restore_silent (store : CoreState) (cold : ColdStore)
    (req : ResolutionRequest) (r : Item)
    (hforce : req.forceRefetch = false)
    (hfall : indexItem store req.containerName req.uri = none ∨
      ∃ it, indexItem store req.containerName req.uri = some it ∧
        getMissingDependents (some it) req.dependents req.fullDependents req.full ≠ [])
    (hr : coldStoreItem cold req.uri = some r)
    (hcomplete : getMissingDependents (some r) req.dependents req.fullDependents req.full = []) :
    (∀ u b, Event.setLoading u b ∉ ensureLoaded store cold req)
    ∧ (∀ u, Event.stopLoading u ∉ ensureLoaded store cold req) := by
  have hfall₂ : ∀ it, indexItem store req.containerName req.uri = some it →
      getMissingDependents (some it) req.dependents req.fullDependents req.full ≠ [] := by
    intro it hit
    rcases hfall with h | ⟨it₂, hit₂, hne⟩
    · rw [h] at hit
      exact absurd hit (by simp)
    · rw [hit₂] at hit
      rw [← Option.some.inj hit]
      exact hne
  have ht := (ensureLoaded_fallthrough store cold req hforce hfall₂).trans
    (coldStorePath_restore cold req r hr hcomplete)
  constructor
  · intro u b hmem
    rw [ht] at hmem
    rcases mem_restoreEvents cold req r (Event.setLoading u b) hmem
      with ⟨u₂, h⟩ | ⟨items, h⟩ | ⟨p, h⟩ | ⟨p, h⟩ <;> exact Event.noConfusion h
  · intro u hmem
    rw [ht] at hmem
    rcases mem_restoreEvents cold req r (Event.stopLoading u) hmem
      with ⟨u₂, h⟩ | ⟨items, h⟩ | ⟨p, h⟩ | ⟨p, h⟩ <;> exact Event.noConfusion h

/-- Witness for C10 at Scenario B's states. -/
theorem ensureLoaded_cold_restore_silent_witness :
    Event.setLoading "x" true ∉ ensureLoaded [] exCold exReq :=
  (ensureLoaded_cold_restore_silent [] exCold exReq exItem rfl (Or.inl rfl)
    (by decide) (by decide)).1 "x" true

end Iris
